import Mathlib

/-!
Verification of the jdwpfs core against its natural-language specification.

The Go sources are shallowly embedded: the mutable state of each FUSE node becomes a
Lean structure, each callback a pure function from state (plus its inputs and
an oracle for the remote JVM adapter) to the new state, the returned byte
count, and the POSIX errno. Go maps are modelled as association lists whose
keys are kept distinct by the operations that build them, matching the key-uniqueness of Go maps; `range` iteration order is irrelevant everywhere it is used
below except where noted.

Two Go-language pitfalls present in the source are embedded faithfully:
* a `switch` `case` with an empty body does not fall through to the next case
  (Go has no implicit fallthrough), so such a case selects and does nothing;
* under Go 1.18 (`go.mod`), taking the address of a `range` loop variable
  (`found = &x` inside `for _, x := range xs`) yields, after the loop, a
  pointer to the value of the *last* iteration, not the matched one.
-/

namespace Jdwpfs

/-- POSIX errno values as returned by the filesystem callbacks
(`syscall.F_OK` is success = 0). -/
inductive Errno where
  | F_OK
  | EBADR
  | ENAVAIL
  | EBADE
  | EBADMSG
  | ENOENT
  | EADDRNOTAVAIL
  | EAFNOSUPPORT
  | EFAULT
  | EACCES
  | EROFS
  deriving DecidableEq, Repr

/-- `jdwp.EventKind` (collaborator library): the seventeen debug-event kinds. -/
inductive EventKind where
  | SingleStep
  | Breakpoint
  | FramePop
  | Exception
  | UserDefined
  | ThreadStart
  | ThreadDeath
  | ClassPrepare
  | ClassUnload
  | ClassLoad
  | FieldAccess
  | FieldModification
  | ExceptionCatch
  | MethodEntry
  | MethodExit
  | VMStart
  | VMDeath
  deriving DecidableEq, Repr

/-- `jdwp.SuspendPolicy` (collaborator library). -/
inductive SuspendPolicy where
  | SuspendNone
  | SuspendEventThread
  | SuspendAll
  deriving DecidableEq, Repr

/-- `jdwp.EventModifier` as constructed in `EventLocationDirectory.Symlink`:
either field-only `(reference-type-id, field-id)` or location-only
`(type-tag, class-id, method-id, code-index)`. Ids and the type tag byte are
modelled as `Nat`. -/
inductive EventModifier where
  | fieldOnly (type : Nat) (field : Nat)
  | locationOnly (typeTag : Nat) (cls : Nat) (method : Nat) (location : Nat)
  deriving DecidableEq, Repr

/-- Association-list lookup, used to model Go map reads (`m[k]`). -/
def lookupA (l : List (String × α)) (k : String) : Option α :=
  match l with
  | [] => none
  | (k', v) :: rest => if k' = k then some v else lookupA rest k

/-- Go map write `m[k] = v`: overwrite the entry if the key is present,
otherwise add it. -/
def setA (l : List (String × α)) (k : String) (v : α) : List (String × α) :=
  match l with
  | [] => [(k, v)]
  | (k', v') :: rest => if k' = k then (k, v) :: rest else (k', v') :: setA rest k v

/-- Go map delete `delete(m, k)`. -/
def delA (l : List (String × α)) (k : String) : List (String × α) :=
  match l with
  | [] => []
  | (k', v') :: rest => if k' = k then rest else (k', v') :: delA rest k

/-- Whitespace test used by `strings.TrimSpace` (restricted to the ASCII
whitespace relevant to the control vocabularies). -/
def isSpace (c : Char) : Bool :=
  c = ' ' || c = '\n' || c = '\t' || c = '\r'

/-- `strings.TrimSpace`: strip leading and trailing whitespace. -/
def trimSpace (s : String) : String :=
  String.mk (((s.data.dropWhile isSpace).reverse.dropWhile isSpace).reverse)

/-- `debug.DebuggingEvent`: the central mutable entity. The runtime handle
(`ctx`, `cancel`) is modelled by `ctxPresent : Bool` (`e.ctx != nil`); the
maps by association lists. -/
structure DebuggingEvent where
  name : String
  kind : EventKind
  suspendPolicy : SuspendPolicy
  modifierDescriptors : List (String × EventModifier)
  hookDescriptors : List (String × String)
  ctxPresent : Bool
  deriving DecidableEq, Repr

/-- `debug.NewStubDebuggingEvent`. -/
def newStubDebuggingEvent (name : String) : DebuggingEvent :=
  { name := name
    kind := .VMDeath
    suspendPolicy := .SuspendNone
    modifierDescriptors := []
    hookDescriptors := []
    ctxPresent := false }

instance : Inhabited DebuggingEvent :=
  ⟨newStubDebuggingEvent ""⟩

/-- `DebuggingEvent.IsRunning`: `e.ctx != nil`. -/
def DebuggingEvent.isRunning (e : DebuggingEvent) : Bool :=
  e.ctxPresent

/-- `DebuggingEvent.SetKind`. -/
def DebuggingEvent.setKind (e : DebuggingEvent) (k : EventKind) : DebuggingEvent :=
  { e with kind := k }

/-- `DebuggingEvent.SetSuspendPolicy`. -/
def DebuggingEvent.setSuspendPolicy (e : DebuggingEvent) (p : SuspendPolicy) : DebuggingEvent :=
  { e with suspendPolicy := p }

/-- `DebuggingEvent.SetModifier`: unconditional map write (overwrites). -/
def DebuggingEvent.setModifier (e : DebuggingEvent) (name : String) (m : EventModifier) :
    DebuggingEvent :=
  { e with modifierDescriptors := setA e.modifierDescriptors name m }

/-- `DebuggingEvent.SetHookDescriptor`: fails (returns `false`) if the name is
already present. -/
def DebuggingEvent.setHookDescriptor (e : DebuggingEvent) (name target : String) :
    DebuggingEvent × Bool :=
  match lookupA e.hookDescriptors name with
  | some _ => (e, false)
  | none => ({ e with hookDescriptors := setA e.hookDescriptors name target }, true)

/-- `DebuggingEvent.Run`. The Go method first stores the fresh context and
cancel function (`e.ctx = eventContext`), then builds the plugin runner from
the hook descriptors; `loadOk` is the oracle telling whether a hook reference
can be located and loaded (`os.Stat` + `plugin.Open` + symbol lookup). A
failed build returns the error, but `e.ctx` has already been set and is not
rolled back. The returned `Bool` is `true` when `Run` returned a non-nil
error. -/
def DebuggingEvent.run (loadOk : String → Bool) (e : DebuggingEvent) :
    DebuggingEvent × Bool :=
  let started := { e with ctxPresent := true }
  if e.hookDescriptors.any (fun p => ! loadOk p.2) then
    (started, true)
  else
    (started, false)

/-- `DebuggingEvent.Cancel`. When idle it returns a "not running" error.
When active it cancels the context, clears the handle, and returns
`e.ctx.Err()`, which after cancellation is `context.Canceled` — a non-nil
error — so the returned `Bool` (error present) is `true` in both branches. -/
def DebuggingEvent.cancel (e : DebuggingEvent) : DebuggingEvent × Bool :=
  if e.ctxPresent then
    ({ e with ctxPresent := false }, true)
  else
    (e, true)

/-- `EventControlFile.Read` at offset 0. -/
def eventControlRead (e : DebuggingEvent) : String :=
  if e.isRunning then "running" else "idle"

/-- `EventControlFile.Write`. The Go `switch` on the trimmed data has empty
bodies for `case "run":` and `case "cancel":` (no implicit fallthrough), so
those two tokens select, do nothing, and reach the success return; only
`"1"` and `"0"` reach the activate/cancel code. Result: new event state,
bytes reported written, errno. -/
def eventControlWrite (loadOk : String → Bool) (e : DebuggingEvent) (data : String) :
    DebuggingEvent × Nat × Errno :=
  let w := trimSpace data
  if w = "run" then
    (e, data.length, .F_OK)
  else if w = "1" then
    if e.isRunning then (e, 0, .ENAVAIL)
    else
      let r := e.run loadOk
      if r.2 then (r.1, 0, .EBADE) else (r.1, data.length, .F_OK)
  else if w = "cancel" then
    (e, data.length, .F_OK)
  else if w = "0" then
    if ! e.isRunning then (e, 0, .ENAVAIL)
    else
      let r := e.cancel
      if r.2 then (r.1, 0, .EBADE) else (r.1, data.length, .F_OK)
  else
    (e, 0, .EBADMSG)

/-- The `eventKindReprMap` literal from `fs/event_control_files.go`, as an
association list (the 17 keys of the map are pairwise distinct). -/
def eventKindReprMap : List (String × EventKind) :=
  [("SingleStep", .SingleStep),
   ("Breakpoint", .Breakpoint),
   ("FramePop", .FramePop),
   ("Exception", .Exception),
   ("UserDefined", .UserDefined),
   ("ThreadStart", .ThreadStart),
   ("ThreadDeath", .ThreadDeath),
   ("ClassPrepare", .ClassPrepare),
   ("ClassUnload", .ClassUnload),
   ("ClassLoad", .ClassLoad),
   ("FieldAccess", .FieldAccess),
   ("FieldModification", .FieldModification),
   ("ExceptionCatch", .ExceptionCatch),
   ("MethodEntry", .MethodEntry),
   ("MethodExit", .MethodExit),
   ("VMStart", .VMStart),
   ("VMDeath", .VMDeath)]

/-- Modelled from the spec: `jdwp.EventKind.String()` lives in the collaborator
library `github.com/omerye/gojdb` (out of scope per §1); §6.5 fixes the
symbolic kind names to the canonical names of §3, which are exactly the keys
of `eventKindReprMap`. -/
def EventKind.repr : EventKind → String
  | .SingleStep => "SingleStep"
  | .Breakpoint => "Breakpoint"
  | .FramePop => "FramePop"
  | .Exception => "Exception"
  | .UserDefined => "UserDefined"
  | .ThreadStart => "ThreadStart"
  | .ThreadDeath => "ThreadDeath"
  | .ClassPrepare => "ClassPrepare"
  | .ClassUnload => "ClassUnload"
  | .ClassLoad => "ClassLoad"
  | .FieldAccess => "FieldAccess"
  | .FieldModification => "FieldModification"
  | .ExceptionCatch => "ExceptionCatch"
  | .MethodEntry => "MethodEntry"
  | .MethodExit => "MethodExit"
  | .VMStart => "VMStart"
  | .VMDeath => "VMDeath"

/-- `EventKindFile.Read` at offset 0: `c.event.GetKind().String()`. -/
def eventKindRead (e : DebuggingEvent) : String :=
  e.kind.repr

/-- `EventKindFile.Write`: trim, look the token up in `eventKindReprMap`;
a miss returns `EAFNOSUPPORT` without touching the event, a hit stores the
kind via `SetKind`. -/
def eventKindWrite (e : DebuggingEvent) (data : String) : DebuggingEvent × Nat × Errno :=
  match lookupA eventKindReprMap (trimSpace data) with
  | none => (e, 0, .EAFNOSUPPORT)
  | some k => (e.setKind k, data.length, .F_OK)

/-- One entry of the `links` slice kept by the two per-event link directories:
`(name, target)`. -/
structure DirLink where
  name : String
  target : String
  deriving DecidableEq, Repr

/-- `fs.EventHooksDirectory`: the event handle plus the `links` slice. -/
structure EventHooksDirectory where
  event : DebuggingEvent
  links : List DirLink
  deriving Repr

/-- `EventHooksDirectory.Symlink`: appends `(name, target)` to the `links`
slice and returns success. Note that it never touches `d.event` — no hook
descriptor is registered. -/
def EventHooksDirectory.symlink (d : EventHooksDirectory) (target name : String) :
    EventHooksDirectory × Errno :=
  ({ d with links := d.links ++ [{ name := name, target := target }] }, .F_OK)

/-- `EventHooksDirectory.Readdir`: one directory entry per link. -/
def EventHooksDirectory.readdir (d : EventHooksDirectory) : List String :=
  d.links.map DirLink.name

/-- `jdwp.ClassInfo` as used here: the reference-type id (from which
`ClassID()` is derived), the type-tag byte (`Kind`), and the signature. -/
structure ClassInfo where
  typeID : Nat
  kind : Nat
  signature : String
  deriving DecidableEq, Repr

/-- `jdwp.ClassInfo.ClassID()`: the class id carried by the reference-type id. -/
def ClassInfo.classID (c : ClassInfo) : Nat :=
  c.typeID

/-- `jdwp.Method`: id, name, signature (modifier bits not needed here). -/
structure Method where
  id : Nat
  name : String
  signature : String
  deriving DecidableEq, Repr

/-- `jdwp.Field`: id, name, signature (modifier bits not needed here). -/
structure Field where
  id : Nat
  name : String
  signature : String
  deriving DecidableEq, Repr

/-- The debug connection adapter (§4.A) as consumed by the nodes below:
`GetAllClasses`, `GetMethods`, `GetFields`. The adapter is assumed reachable
(transport failures take separate `EADDRNOTAVAIL` exits that the claims do
not touch). -/
structure Connection where
  classes : List ClassInfo
  methodsOf : Nat → List Method
  fieldsOf : Nat → List Field

/-- The `found = &x` pattern of the Go 1.18 sources: a `range` loop that sets
`found` to the address of the loop variable on a match. After the loop,
`found` is non-nil iff some element matched, but it points at the loop
variable, whose final value is the *last* element of the slice. -/
def findAliased (p : α → Bool) (xs : List α) : Option α :=
  if xs.any p then xs.getLast? else none

/-- `fs.EventLocationDirectory`: event handle, absolute mountpoint, `links`
slice. -/
structure EventLocationDirectory where
  event : DebuggingEvent
  absoluteMountpoint : String
  links : List DirLink
  deriving Repr

/-- `EventLocationDirectory.Readdir`. -/
def EventLocationDirectory.readdir (d : EventLocationDirectory) : List String :=
  d.links.map DirLink.name

/-- Decimal digit value of a character, `none` when not a digit. -/
def digitVal (c : Char) : Option Nat :=
  if c = '0' then some 0 else if c = '1' then some 1 else if c = '2' then some 2
  else if c = '3' then some 3 else if c = '4' then some 4 else if c = '5' then some 5
  else if c = '6' then some 6 else if c = '7' then some 7 else if c = '8' then some 8
  else if c = '9' then some 9 else none

/-- The Go function `strconv.ParseUint(s, 10, 64)`: a nonempty all-digit
string parses to its decimal value, anything else is an error. -/
def parseUintDec (s : String) : Option Nat :=
  if s.data = [] then none
  else
    s.data.foldl (fun acc c =>
      match acc, digitVal c with
      | some n, some d => some (n * 10 + d)
      | _, _ => none) (some 0)

/-- `strings.Split(s, "/")` over the character list. -/
def splitSlash : List Char → List (List Char)
  | [] => [[]]
  | c :: rest =>
    let r := splitSlash rest
    if c = '/' then [] :: r
    else
      match r with
      | [] => [[c]]
      | h :: t => (c :: h) :: t

/-- The component split of `EventLocationDirectory.Symlink`:
`strings.Split(strings.TrimPrefix(absPath, mnt), "/")` followed by the loop
dropping leading `"/"` or `""` components. (When every component is dropped
the Go loop indexes an empty slice and panics; the inputs of the claims never reach
that state, and the model then simply fails the shape test.) -/
def splitComponents (mnt absPath : String) : List String :=
  ((splitSlash (absPath.data.drop mnt.data.length)).map String.mk).dropWhile
    (fun c => c = "/" || c = "")

/-- `strings.HasPrefix`. -/
def hasPrefixStr (s pre : String) : Bool :=
  pre.data.isPrefixOf s.data

/-- `EventLocationDirectory.Symlink`. The target has already been made
absolute and symlink-free by `filepath.Abs`/`filepath.EvalSymlinks` (an OS
concern; for absolute targets containing no symlinks both are the identity,
which is how the model presents them). The matched class, field and method
are found with the aliased-pointer loops (`findAliased`), so the values used
to build the modifier come from the last listing element whenever a match
exists. On success the modifier is stored in the event and the link appended. -/
def EventLocationDirectory.symlink (conn : Connection) (d : EventLocationDirectory)
    (target name : String) : EventLocationDirectory × Errno :=
  let absPath := target
  if ! hasPrefixStr absPath d.absoluteMountpoint then (d, .EBADE)
  else
    let comps := splitComponents d.absoluteMountpoint absPath
    if ¬ (comps.length = 4 ∧ comps[0]! = "classes" ∧
          (comps[2]! = "fields" ∨ comps[2]! = "methods")) then (d, .EBADE)
    else
      match parseUintDec comps[1]! with
      | none => (d, .EBADE)
      | some classId =>
        match findAliased (fun c => c.classID = classId) conn.classes with
        | none => (d, .ENOENT)
        | some foundClass =>
          if comps[2]! = "fields" then
            match parseUintDec comps[3]! with
            | none => (d, .EBADE)
            | some fieldId =>
              match findAliased (fun f => f.id = fieldId) (conn.fieldsOf classId) with
              | none => (d, .ENOENT)
              | some foundField =>
                let m := EventModifier.fieldOnly foundClass.typeID foundField.id
                ({ d with event := d.event.setModifier name m,
                          links := d.links ++ [{ name := name, target := target }] },
                 .F_OK)
          else
            match parseUintDec comps[3]! with
            | none => (d, .EBADE)
            | some methodId =>
              match findAliased (fun m => m.id = methodId) (conn.methodsOf classId) with
              | none => (d, .ENOENT)
              | some foundMethod =>
                let m := EventModifier.locationOnly foundClass.kind foundClass.classID
                  foundMethod.id 0
                ({ d with event := d.event.setModifier name m,
                          links := d.links ++ [{ name := name, target := target }] },
                 .F_OK)

/-- Index of the last element satisfying `p`: the `foundIndex` left behind by
the Go search loops, which overwrite it on every match. -/
def lastIdxP (p : α → Bool) : List α → Option Nat
  | [] => none
  | x :: xs =>
    match lastIdxP p xs with
    | some i => some (i + 1)
    | none => if p x then some 0 else none

/-- The index recorded by the `Unlink` search loop: the index of the *last*
link with the given name (`foundLinkIndex` is overwritten on every match). -/
def lastMatchIdx (links : List DirLink) (name : String) : Option Nat :=
  lastIdxP (fun l => l.name = name) links

/-- `EventLocationDirectory.Unlink`: removes the last link carrying the name
from the `links` slice (`append(links[:i], links[i+1:]...)`), or `ENOENT`.
It never touches `d.event` — the modifier stays in the modifier map of the event. -/
def EventLocationDirectory.unlink (d : EventLocationDirectory) (name : String) :
    EventLocationDirectory × Errno :=
  match lastMatchIdx d.links name with
  | none => (d, .ENOENT)
  | some i => ({ d with links := d.links.take i ++ d.links.drop (i + 1) }, .F_OK)

/-- `debug.EventManager`: the ordered registry of events (the locks are
modelled through the action trace of `deregisterEvent`). -/
structure EventManager where
  registeredEvents : List DebuggingEvent
  deriving Repr

/-- `EventManager.CreateEvent`: scans the registry for the name; a duplicate
fails (`none`) with the registry untouched, otherwise a fresh stub event is
appended and returned. -/
def EventManager.createEvent (m : EventManager) (name : String) :
    EventManager × Option DebuggingEvent :=
  if m.registeredEvents.any (fun e => e.name = name) then
    (m, none)
  else
    let ev := newStubDebuggingEvent name
    ({ registeredEvents := m.registeredEvents ++ [ev] }, some ev)

/-- Lock and registry actions emitted by `EventManager.DeregisterEvent`, in
program order: acquire the registry write lock, acquire the event lock,
erase the registry entry, release the registry write lock (the deferred
unlock). -/
inductive MgrAction where
  | lockRegistry
  | lockEvent
  | erase
  | unlockRegistry
  deriving DecidableEq, Repr

/-- The index recorded by the `DeregisterEvent` search loop: index of the
last registered event carrying the name. -/
def lastEventIdx (events : List DebuggingEvent) (name : String) : Option Nat :=
  lastIdxP (fun e => e.name = name) events

/-- `EventManager.DeregisterEvent`: under the registry write lock (held for
the whole body by `defer m.mu.Unlock()`), find the event; missing → error;
found and running (`event.ctx != nil`) → error with the registry untouched;
found and idle → erase the entry. Returns the new registry, whether an error
was returned, and the emitted action trace. -/
def EventManager.deregisterEvent (m : EventManager) (name : String) :
    EventManager × Bool × List MgrAction :=
  match lastEventIdx m.registeredEvents name with
  | none => (m, true, [.lockRegistry, .unlockRegistry])
  | some i =>
    let ev := m.registeredEvents[i]!
    if ev.ctxPresent then
      (m, true, [.lockRegistry, .lockEvent, .unlockRegistry])
    else
      ({ registeredEvents :=
           m.registeredEvents.take i ++ m.registeredEvents.drop (i + 1) },
       false,
       [.lockRegistry, .lockEvent, .erase, .unlockRegistry])

/-- Calls made against the adapter by the per-thread control file. -/
inductive JvmCall where
  | suspend (tid : Nat)
  | resume (tid : Nat)
  deriving DecidableEq, Repr

/-- `ThreadControlFile.Read` at offset 0 (both source versions agree):
render the suspend status of the thread. -/
def threadControlRead (suspendStatus : Nat) : String :=
  if suspendStatus = 0 then "running"
  else if suspendStatus = 1 then "suspended"
  else "not implemented"

/-- `ThreadControlFile.Write` (the `sync.Mutex` version). `suspendStatus` is
the value `GetThreadStatus` reports for the thread at the time of the write.
The Go `switch` on the trimmed data has empty bodies for `case "running":`
and `case "suspend":` (no implicit fallthrough), so both tokens leave
`writtenState` at its zero value `0`; only `"1"` assigns `1`. When the status
differs from `writtenState`, state `0` triggers `Suspend` and state `1`
triggers `Resume`. Returns the adapter calls issued, the byte count, and the
errno. -/
def threadControlWrite (suspendStatus tid : Nat) (data : String) :
    List JvmCall × Nat × Errno :=
  let w := trimSpace data
  let writtenState? : Option Nat :=
    if w = "running" then some 0      -- empty case body: writtenState keeps 0
    else if w = "1" then some 1
    else if w = "suspend" then some 0 -- empty case body: writtenState keeps 0
    else if w = "0" then some 0
    else none
  match writtenState? with
  | none => ([], 0, .EFAULT)
  | some ws =>
    if suspendStatus ≠ ws then
      (if ws = 0 then [.suspend tid] else [.resume tid], data.length, .F_OK)
    else
      ([], data.length, .F_OK)

/-- One `methodInfo` line: `fmt.Sprintf("%s%d\t%s\t%s\n", acc, id, name, sig)`
appends `<decimal-id>\t<name>\t<signature>\n` to the accumulator. -/
def methodInfoLine (m : Method) : String :=
  toString m.id ++ "\t" ++ m.name ++ "\t" ++ m.signature ++ "\n"

/-- One `fieldInfo` line. -/
def fieldInfoLine (f : Field) : String :=
  toString f.id ++ "\t" ++ f.name ++ "\t" ++ f.signature ++ "\n"

/-- `sort.Sort(MethodById(methods))`: the Go sort contract guarantees some permutation
ordered by `Less` (`ms[i].ID < ms[j].ID`); it is modelled by insertion sort
with the matching non-strict comparison. -/
def sortMethodsById (ms : List Method) : List Method :=
  ms.insertionSort (fun a b => a.id ≤ b.id)

/-- `sort.Sort(FieldById(fields))`. -/
def sortFieldsById (fl : List Field) : List Field :=
  fl.insertionSort (fun a b => a.id ≤ b.id)

/-- The `methodInfo` file content built by `JdwpClassInfoDir.Lookup`: sort by
id, then fold the line format over the accumulator. -/
def methodInfoContent (ms : List Method) : String :=
  (sortMethodsById ms).foldl (fun acc m => acc ++ methodInfoLine m) ""

/-- The `fieldInfo` file content built by `JdwpClassInfoDir.Lookup`. -/
def fieldInfoContent (fl : List Field) : String :=
  (sortFieldsById fl).foldl (fun acc f => acc ++ fieldInfoLine f) ""

end Jdwpfs

namespace Jdwpfs

section Lemmas

/-- If `lastIdxP` reports no index, no element satisfies the predicate. -/
theorem lastIdxP_eq_none_iff (p : α → Bool) (xs : List α) :
    lastIdxP p xs = none ↔ ∀ x ∈ xs, p x = false := by
  induction xs with
  | nil => simp [lastIdxP]
  | cons x xs ih =>
    rw [lastIdxP]
    cases h : lastIdxP p xs with
    | some i =>
      constructor
      · intro hc; simp at hc
      · intro hall
        have hnone : lastIdxP p xs = none :=
          ih.mpr (fun y hy => hall y (List.mem_cons_of_mem _ hy))
        rw [h] at hnone
        simp at hnone
    | none =>
      by_cases hx : p x = true
      · simp [hx]
      · simp only [Bool.not_eq_true] at hx
        simp [hx]
        exact ih.mp h

/-- An index reported by `lastIdxP` is in bounds and points at a match. -/
theorem lastIdxP_get (p : α → Bool) :
    ∀ (xs : List α) (i : Nat), lastIdxP p xs = some i →
      ∃ h : i < xs.length, p (xs.get ⟨i, h⟩) = true := by
  intro xs
  induction xs with
  | nil => intro i h; exact Option.noConfusion h
  | cons x xs ih =>
    intro i h
    simp only [lastIdxP] at h
    cases hr : lastIdxP p xs with
    | some j =>
      rw [hr] at h
      injection h with h
      subst h
      obtain ⟨hj, hpj⟩ := ih j hr
      exact ⟨Nat.succ_lt_succ hj, hpj⟩
    | none =>
      rw [hr] at h
      by_cases hx : p x = true
      · simp only [hx, if_true] at h
        injection h with h
        subst h
        exact ⟨Nat.succ_pos _, hx⟩
      · simp only [Bool.not_eq_true] at hx
        simp [hx] at h

/-- Removing the element at the index reported by `lastIdxP` is `eraseP`,
provided keys are unique (no two elements share the matched key). -/
theorem removeAt_lastIdxP_eq_eraseP (f : α → String) (k : String) :
    ∀ (xs : List α), (xs.map f).Nodup →
      ∀ i, lastIdxP (fun x => f x = k) xs = some i →
        xs.take i ++ xs.drop (i + 1) = xs.eraseP (fun x => f x = k) := by
  intro xs
  induction xs with
  | nil => intro _ i h; exact Option.noConfusion h
  | cons x xs ih =>
    intro hnd i h
    rw [List.map_cons, List.nodup_cons] at hnd
    simp only [lastIdxP] at h
    cases hr : lastIdxP (fun x => f x = k) xs with
    | some j =>
      rw [hr] at h
      injection h with h
      subst h
      have hpx : ¬ (f x = k) := by
        intro hfx
        obtain ⟨hj, hpj⟩ := lastIdxP_get (fun x => f x = k) xs j hr
        simp only [decide_eq_true_eq] at hpj
        exact hnd.1 (by
          rw [hfx, ← hpj]
          exact List.mem_map_of_mem f (xs.get_mem _ _))
      rw [List.eraseP_cons_of_neg (by simpa using hpx)]
      simp only [List.take_succ_cons, List.drop_succ_cons, List.cons_append]
      rw [ih hnd.2 j hr]
    | none =>
      rw [hr] at h
      by_cases hx : f x = k
      · rw [if_pos (decide_eq_true hx)] at h
        injection h with h
        subst h
        have herase : List.eraseP (fun y => decide (f y = k)) (x :: xs) = xs :=
          List.eraseP_cons_of_pos (l := xs) (decide_eq_true hx)
        simpa using herase.symm
      · simp [hx] at h

/-- `List.any` with an equality test finds exactly the members. -/
theorem any_name_eq_true_iff (xs : List DebuggingEvent) (name : String) :
    xs.any (fun e => e.name = name) = true ↔ ∃ e ∈ xs, e.name = name := by
  simp [List.any_eq_true]

end Lemmas

section Claims

/-- C1 (code bug): the Go `switch` in `EventControlFile.Write` has an empty
body for `case "run":` (and `case "cancel":`), so writing the token "run" to
an idle event does nothing and still reports success — the event stays idle
and a subsequent control read returns "idle", where the claim requires the
event to be observably running. -/
theorem eventControl_write_run_is_noop :
    eventControlWrite (fun _ => true) (newStubDebuggingEvent "watch1") "run"
      = (newStubDebuggingEvent "watch1", 3, .F_OK) ∧
    eventControlRead (eventControlWrite (fun _ => true)
      (newStubDebuggingEvent "watch1") "run").1 = "idle" ∧
    eventControlWrite (fun _ => true)
      ((DebuggingEvent.run (fun _ => true) (newStubDebuggingEvent "watch1")).1) "cancel"
      = ((DebuggingEvent.run (fun _ => true) (newStubDebuggingEvent "watch1")).1,
         6, .F_OK) := by
  refine ⟨by decide, by decide, by decide⟩

/-- C2 (code bug): `EventHooksDirectory.Symlink` appends the link without
registering a hook descriptor on the event, and
`EventLocationDirectory.Unlink` removes the link without deleting the
modifier, so the claimed count equalities fail after one symlink in `hooks/`
(1 link vs 0 hooks) and after one unlink in `location/` (0 links vs 1
modifier). -/
theorem links_and_event_maps_diverge :
    ((let d0 : EventHooksDirectory :=
        { event := newStubDebuggingEvent "watch1", links := [] }
      let r := d0.symlink "/tmp/myhook.so" "h0"
      r.2 = Errno.F_OK ∧ r.1.links.length = 1 ∧
        r.1.event.hookDescriptors.length = 0)) ∧
    ((let e1 := (newStubDebuggingEvent "watch1").setModifier "m0"
        (.fieldOnly 1 2)
      let d1 : EventLocationDirectory :=
        { event := e1, absoluteMountpoint := "/mnt",
          links := [{ name := "m0", target := "/mnt/classes/1/fields/2" }] }
      let r := d1.unlink "m0"
      r.2 = Errno.F_OK ∧ r.1.links.length = 0 ∧
        r.1.event.modifierDescriptors.length = 1)) := by
  refine ⟨by decide, by decide⟩

/-- C3 (code bug): `DebuggingEvent.Run` stores the fresh context before
building the hook runner and does not roll it back on failure, so after a
failed activation (a hook reference that does not load) the event reports an
error yet is left marked active: `IsRunning` is `true` and the control file
reads "running", where the claim requires the event to remain idle. -/
theorem run_hook_failure_marks_active :
    (let e0 := { newStubDebuggingEvent "watch1" with
                   hookDescriptors := [("h0", "/tmp/missing.so")] }
     let r := DebuggingEvent.run (fun _ => false) e0
     e0.isRunning = false ∧ r.2 = true ∧ r.1.isRunning = true ∧
       eventControlRead r.1 = "running") := by
  decide

/-- C4 (code bug): the Go `switch` in `ThreadControlFile.Write` has empty
bodies for `case "running":` and `case "suspend":`, so both leave
`writtenState` at its zero value 0 (= suspend). Writing "running" to a
suspended thread (suspend status 1, control file reads "suspended") issues a
`Suspend` call instead of the resume the claim requires, and the idempotent
write "1" to a running thread (status 0) issues a `Resume` instead of being
a no-op. -/
theorem threadControl_write_running_suspends :
    threadControlRead 1 = "suspended" ∧
    threadControlWrite 1 5 "running" = ([.suspend 5], 7, .F_OK) ∧
    threadControlWrite 0 5 "1" = ([.resume 5], 1, .F_OK) := by
  refine ⟨by decide, by decide, by decide⟩

/-- C5 (code bug): the `found = &loopVar` pattern in
`EventLocationDirectory.Symlink` leaves the pointer aliased to the loop
variable, which after the loop holds the last listing element; linking
`classes/1/methods/7` while the class listing is `[class 1, class 2]` and
class 1 has methods `[7, 8]` succeeds but stores the location-only modifier
built from class 2 (type tag 20) and method 8 instead of the matched class 1
(type tag 10) and method 7. -/
theorem location_symlink_uses_last_listing_entry :
    (let conn : Connection :=
       { classes := [⟨1, 10, "Lc1;"⟩, ⟨2, 20, "Lc2;"⟩],
         methodsOf := fun c =>
           if c = 1 then [⟨7, "m7", "()V"⟩, ⟨8, "m8", "()V"⟩] else [],
         fieldsOf := fun _ => [] }
     let d0 : EventLocationDirectory :=
       { event := newStubDebuggingEvent "watch1",
         absoluteMountpoint := "/mnt", links := [] }
     let r := d0.symlink conn "/mnt/classes/1/methods/7" "m0"
     r.2 = Errno.F_OK ∧
       lookupA r.1.event.modifierDescriptors "m0"
         = some (.locationOnly 20 2 8 0) ∧
       lookupA r.1.event.modifierDescriptors "m0"
         ≠ some (.locationOnly 10 1 7 0)) := by
  refine ⟨by decide, by decide, by decide⟩

/-- C10 (frame effect): an event-control write, whatever its data and
outcome, leaves the kind, the suspend policy, the modifier map and the hook
map of the event untouched — only the runtime handle can change. -/
theorem eventControl_write_preserves_config (loadOk : String → Bool)
    (e : DebuggingEvent) (data : String) :
    (eventControlWrite loadOk e data).1.kind = e.kind ∧
    (eventControlWrite loadOk e data).1.suspendPolicy = e.suspendPolicy ∧
    (eventControlWrite loadOk e data).1.modifierDescriptors
      = e.modifierDescriptors ∧
    (eventControlWrite loadOk e data).1.hookDescriptors = e.hookDescriptors := by
  unfold eventControlWrite DebuggingEvent.run DebuggingEvent.cancel
  dsimp only
  split_ifs <;> simp

/-- C6: `EventManager.DeregisterEvent` fails on an active event (and on a
missing name) and every failure leaves the registry unchanged; on an idle
event it erases exactly the named event; the registry write lock is acquired
first and released last, with the erasure strictly before the release
(`defer m.mu.Unlock()` spans the whole body). -/
theorem deregisterEvent_requires_idle_and_is_atomic (m : EventManager)
    (name : String)
    (hnd : (m.registeredEvents.map DebuggingEvent.name).Nodup) :
    ((m.deregisterEvent name).2.1 = true → (m.deregisterEvent name).1 = m) ∧
    (∀ e ∈ m.registeredEvents, e.name = name → e.isRunning = true →
        (m.deregisterEvent name).2.1 = true) ∧
    (∀ e ∈ m.registeredEvents, e.name = name → e.isRunning = false →
        (m.deregisterEvent name).2.1 = false ∧
        (m.deregisterEvent name).1.registeredEvents
          = m.registeredEvents.eraseP (fun e => e.name = name)) ∧
    (m.deregisterEvent name).2.2.head? = some .lockRegistry ∧
    (m.deregisterEvent name).2.2.getLast? = some .unlockRegistry ∧
    ((m.deregisterEvent name).2.1 = false →
        (m.deregisterEvent name).2.2
          = [.lockRegistry, .lockEvent, .erase, .unlockRegistry]) := by
  cases hi : lastEventIdx m.registeredEvents name with
  | none =>
    have hno : ∀ e ∈ m.registeredEvents, ¬ (e.name = name) := by
      intro e he hn
      have hall := (lastIdxP_eq_none_iff
        (fun e : DebuggingEvent => e.name = name) m.registeredEvents).mp hi e he
      simp [hn] at hall
    have hR : m.deregisterEvent name
        = (m, true, [.lockRegistry, .unlockRegistry]) := by
      simp [EventManager.deregisterEvent, hi]
    rw [hR]
    refine ⟨fun _ => rfl, ?_, ?_, rfl, rfl, ?_⟩
    · intro e he hn _; exact absurd hn (hno e he)
    · intro e he hn _; exact absurd hn (hno e he)
    · intro hfalse; simp at hfalse
  | some i =>
    obtain ⟨hlt, hpi⟩ :=
      lastIdxP_get (fun e : DebuggingEvent => e.name = name) m.registeredEvents i hi
    have hbang : m.registeredEvents[i]! = m.registeredEvents.get ⟨i, hlt⟩ := by
      rw [getElem!_pos m.registeredEvents i hlt]
      simp
    have hname_i : (m.registeredEvents[i]!).name = name := by
      rw [hbang]
      simpa using hpi
    have hmem_i : m.registeredEvents[i]! ∈ m.registeredEvents := by
      rw [hbang]
      exact m.registeredEvents.get_mem _ _
    have heq_of : ∀ e ∈ m.registeredEvents, e.name = name →
        e = m.registeredEvents[i]! := by
      intro e he hn
      exact List.inj_on_of_nodup_map hnd he hmem_i (by rw [hn, hname_i])
    by_cases hrun : (m.registeredEvents[i]!).ctxPresent = true
    · have hR : m.deregisterEvent name
          = (m, true, [.lockRegistry, .lockEvent, .unlockRegistry]) := by
        simp [EventManager.deregisterEvent, hi, hrun]
      rw [hR]
      refine ⟨fun _ => rfl, fun _ _ _ _ => rfl, ?_, rfl, rfl, ?_⟩
      · intro e he hn hidle
        rw [heq_of e he hn] at hidle
        simp [DebuggingEvent.isRunning, hrun] at hidle
      · intro hfalse; simp at hfalse
    · rw [Bool.not_eq_true] at hrun
      have herase :=
        removeAt_lastIdxP_eq_eraseP DebuggingEvent.name name m.registeredEvents hnd i hi
      have hR : m.deregisterEvent name
          = (⟨m.registeredEvents.take i ++ m.registeredEvents.drop (i + 1)⟩, false,
             [.lockRegistry, .lockEvent, .erase, .unlockRegistry]) := by
        simp [EventManager.deregisterEvent, hi, hrun]
      rw [hR]
      refine ⟨?_, ?_, ?_, rfl, rfl, fun _ => rfl⟩
      · intro hc; simp at hc
      · intro e he hn hr
        rw [heq_of e he hn] at hr
        simp [DebuggingEvent.isRunning, hrun] at hr
      · intro e he hn _
        exact ⟨rfl, herase⟩

/-- C7: `EventManager.CreateEvent` fails on a duplicate name and leaves the
registry unchanged; on a fresh name it appends a new idle stub event; hence
name-distinctness of the registry is preserved by creation. -/
theorem createEvent_enforces_unique_names (m : EventManager) (name : String) :
    ((∃ e ∈ m.registeredEvents, e.name = name) →
        m.createEvent name = (m, none)) ∧
    ((∀ e ∈ m.registeredEvents, e.name ≠ name) →
        (m.createEvent name).1.registeredEvents
            = m.registeredEvents ++ [newStubDebuggingEvent name] ∧
        (m.createEvent name).2 = some (newStubDebuggingEvent name) ∧
        (newStubDebuggingEvent name).isRunning = false) ∧
    ((m.registeredEvents.map DebuggingEvent.name).Nodup →
        ((m.createEvent name).1.registeredEvents.map DebuggingEvent.name).Nodup) := by
  refine ⟨?_, ?_, ?_⟩
  · rintro ⟨e, he, hn⟩
    have hany : m.registeredEvents.any (fun e => e.name = name) = true :=
      (any_name_eq_true_iff _ _).mpr ⟨e, he, hn⟩
    simp [EventManager.createEvent, hany]
  · intro hall
    have hany : m.registeredEvents.any (fun e => e.name = name) = false := by
      rw [Bool.eq_false_iff]
      intro hc
      obtain ⟨e, he, hn⟩ := (any_name_eq_true_iff _ _).mp hc
      exact hall e he hn
    simp [EventManager.createEvent, hany, DebuggingEvent.isRunning,
      newStubDebuggingEvent]
  · intro hnd
    by_cases hany : m.registeredEvents.any (fun e => e.name = name) = true
    · simp [EventManager.createEvent, hany, hnd]
    · rw [Bool.not_eq_true] at hany
      have hR : m.createEvent name
          = (⟨m.registeredEvents ++ [newStubDebuggingEvent name]⟩,
             some (newStubDebuggingEvent name)) := by
        simp [EventManager.createEvent, hany]
      rw [hR]
      dsimp only
      rw [List.map_append]
      refine hnd.append (by simp) ?_
      intro a ha hb
      simp only [List.map_cons, List.map_nil, List.mem_singleton] at hb
      have hstub : (newStubDebuggingEvent name).name = name := rfl
      rw [hstub] at hb
      subst hb
      obtain ⟨e, he, hn⟩ := List.mem_map.mp ha
      have : m.registeredEvents.any (fun e => e.name = a) = true :=
        (any_name_eq_true_iff _ _).mpr ⟨e, he, hn⟩
      rw [this] at hany
      exact Bool.noConfusion hany

/-- For each of the 17 entries of `eventKindReprMap`, the key looks up to the
kind, is whitespace-free, and is the string the kind renders back to. -/
theorem lookup_repr_of_mem (s : String) (k : EventKind)
    (h : (s, k) ∈ eventKindReprMap) :
    lookupA eventKindReprMap s = some k ∧ trimSpace s = s ∧ k.repr = s := by
  fin_cases h <;> exact ⟨by decide, by decide, by decide⟩

/-- C8: writing any of the 17 symbolic kind names to `events/<e>/kind`
succeeds and a subsequent read returns the very same name; a token that is
not one of the 17 names (after the trim the protocol applies) is rejected
with the unsupported-value errno and leaves the stored kind — and hence any
subsequent read — unchanged. -/
theorem eventKind_write_read_roundtrip (e : DebuggingEvent) (s : String)
    (k : EventKind) :
    ((s, k) ∈ eventKindReprMap →
        (eventKindWrite e s).2.2 = .F_OK ∧
        eventKindRead (eventKindWrite e s).1 = s) ∧
    (lookupA eventKindReprMap (trimSpace s) = none →
        eventKindWrite e s = (e, 0, .EAFNOSUPPORT) ∧
        eventKindRead (eventKindWrite e s).1 = eventKindRead e) := by
  constructor
  · intro hmem
    obtain ⟨hlk, hts, hrep⟩ := lookup_repr_of_mem s k hmem
    constructor
    · simp [eventKindWrite, hts, hlk]
    · simp [eventKindWrite, hts, hlk, eventKindRead, DebuggingEvent.setKind, hrep]
  · intro hnone
    constructor
    · simp [eventKindWrite, hnone]
    · simp [eventKindWrite, hnone]

/-- Sorting by a key is insensitive to the input order once the keys are
distinct: any two permuted inputs produce the same insertion-sorted list. -/
theorem insertionSort_key_eq {α : Type _} (key : α → Nat) (l₁ l₂ : List α)
    (hp : l₁.Perm l₂) (hnd : (l₁.map key).Nodup) :
    l₁.insertionSort (fun a b => key a ≤ key b)
      = l₂.insertionSort (fun a b => key a ≤ key b) := by
  haveI ht : IsTotal α (fun a b => key a ≤ key b) := ⟨fun a b => Nat.le_total _ _⟩
  haveI htr : IsTrans α (fun a b => key a ≤ key b) :=
    ⟨fun _ _ _ h h2 => Nat.le_trans h h2⟩
  haveI : IsAntisymm α (fun a b => key a < key b) :=
    ⟨fun _ _ h h2 => absurd (Nat.lt_trans h h2) (Nat.lt_irrefl _)⟩
  have hperm : (l₁.insertionSort (fun a b => key a ≤ key b)).Perm
      (l₂.insertionSort (fun a b => key a ≤ key b)) :=
    (List.perm_insertionSort _ l₁).trans
      (hp.trans (List.perm_insertionSort _ l₂).symm)
  have hstrict : ∀ l : List α, (l.map key).Nodup →
      (l.insertionSort (fun a b => key a ≤ key b)).Sorted
        (fun a b => key a < key b) := by
    intro l hl
    have hle := List.sorted_insertionSort (fun a b => key a ≤ key b) l
    have hnds : ((l.insertionSort (fun a b => key a ≤ key b)).map key).Nodup :=
      (((List.perm_insertionSort (fun a b => key a ≤ key b) l).map key).symm).nodup hl
    have hne := List.pairwise_map.mp hnds
    exact (List.Pairwise.and hle hne).imp
      (fun h => Nat.lt_of_le_of_ne h.1 h.2)
  exact List.eq_of_perm_of_sorted hperm (hstrict l₁ hnd)
    (hstrict l₂ ((hp.map key).nodup hnd))

/-- C9: the content of `classes/<cid>/methodInfo` (and `fieldInfo`) is the
concatenation of one `<decimal-id>\t<name>\t<signature>\n` line per method
(field), in ascending id order, and it does not depend on the order in which
the adapter returned the listing. -/
theorem methodInfo_fieldInfo_sorted_ascending
    (ms ms' : List Method) (fl fl' : List Field)
    (hmp : ms.Perm ms') (hmn : (ms.map Method.id).Nodup)
    (hfp : fl.Perm fl') (hfn : (fl.map Field.id).Nodup) :
    (∃ ss : List Method, ss.Perm ms ∧
        ss.Sorted (fun a b => a.id ≤ b.id) ∧
        methodInfoContent ms = String.join (ss.map methodInfoLine)) ∧
    methodInfoContent ms = methodInfoContent ms' ∧
    (∃ ss : List Field, ss.Perm fl ∧
        ss.Sorted (fun a b => a.id ≤ b.id) ∧
        fieldInfoContent fl = String.join (ss.map fieldInfoLine)) ∧
    fieldInfoContent fl = fieldInfoContent fl' := by
  haveI : IsTotal Method (fun a b => a.id ≤ b.id) := ⟨fun a b => Nat.le_total _ _⟩
  haveI : IsTrans Method (fun a b => a.id ≤ b.id) :=
    ⟨fun _ _ _ h h2 => Nat.le_trans h h2⟩
  haveI : IsTotal Field (fun a b => a.id ≤ b.id) := ⟨fun a b => Nat.le_total _ _⟩
  haveI : IsTrans Field (fun a b => a.id ≤ b.id) :=
    ⟨fun _ _ _ h h2 => Nat.le_trans h h2⟩
  have hjoinM : ∀ l : List Method,
      methodInfoContent l = String.join ((sortMethodsById l).map methodInfoLine) := by
    intro l
    simp [methodInfoContent, String.join, List.foldl_map]
  have hjoinF : ∀ l : List Field,
      fieldInfoContent l = String.join ((sortFieldsById l).map fieldInfoLine) := by
    intro l
    simp [fieldInfoContent, String.join, List.foldl_map]
  refine ⟨⟨sortMethodsById ms, List.perm_insertionSort _ ms,
      List.sorted_insertionSort _ ms, hjoinM ms⟩, ?_,
    ⟨sortFieldsById fl, List.perm_insertionSort _ fl,
      List.sorted_insertionSort _ fl, hjoinF fl⟩, ?_⟩
  · have hsorteq : sortMethodsById ms = sortMethodsById ms' :=
      insertionSort_key_eq Method.id ms ms' hmp hmn
    simp [methodInfoContent, hsorteq]
  · have hsorteq : sortFieldsById fl = sortFieldsById fl' :=
      insertionSort_key_eq Field.id fl fl' hfp hfn
    simp [fieldInfoContent, hsorteq]

/-- Witness for C6: on the one-event registry holding the idle event "w",
deregistering "w" succeeds and erases it. -/
theorem deregisterEvent_atomic_witness :
    ((EventManager.mk [newStubDebuggingEvent "w"]).deregisterEvent "w").2.1
        = false ∧
    (((EventManager.mk [newStubDebuggingEvent "w"]).deregisterEvent
        "w").1).registeredEvents
      = [newStubDebuggingEvent "w"].eraseP (fun e => e.name = "w") := by
  exact (deregisterEvent_requires_idle_and_is_atomic
      (EventManager.mk [newStubDebuggingEvent "w"]) "w" (by decide)).2.2.1
    (newStubDebuggingEvent "w") (by decide) (by decide) (by decide)

/-- Witness for C7: creating "w" in the empty registry appends the stub, and
creating "w" again in a registry that holds it fails without change. -/
theorem createEvent_unique_witness :
    ((EventManager.mk []).createEvent "w").1.registeredEvents
        = [newStubDebuggingEvent "w"] ∧
    (EventManager.mk [newStubDebuggingEvent "w"]).createEvent "w"
        = (EventManager.mk [newStubDebuggingEvent "w"], none) := by
  constructor
  · have h := (createEvent_enforces_unique_names (EventManager.mk []) "w").2.1
    simpa using (h (by simp)).1
  · exact (createEvent_enforces_unique_names
        (EventManager.mk [newStubDebuggingEvent "w"]) "w").1
      ⟨newStubDebuggingEvent "w", by decide, by decide⟩

/-- Witness for C8: "MethodEntry" round-trips through the kind file; "xyz"
is rejected and leaves the default kind readable. -/
theorem eventKind_roundtrip_witness :
    eventKindRead (eventKindWrite (newStubDebuggingEvent "w") "MethodEntry").1
        = "MethodEntry" ∧
    eventKindWrite (newStubDebuggingEvent "w") "xyz"
        = (newStubDebuggingEvent "w", 0, .EAFNOSUPPORT) := by
  constructor
  · exact ((eventKind_write_read_roundtrip (newStubDebuggingEvent "w")
      "MethodEntry" .MethodEntry).1 (by decide)).2
  · exact ((eventKind_write_read_roundtrip (newStubDebuggingEvent "w")
      "xyz" .MethodEntry).2 (by decide)).1

/-- Witness for C9: two orderings of the same two-method listing produce the
same `methodInfo` content. -/
theorem methodInfo_sorted_witness :
    methodInfoContent [⟨2, "b", "()V"⟩, ⟨1, "a", "()I"⟩]
      = methodInfoContent [⟨1, "a", "()I"⟩, ⟨2, "b", "()V"⟩] := by
  exact (methodInfo_fieldInfo_sorted_ascending
      [⟨2, "b", "()V"⟩, ⟨1, "a", "()I"⟩] [⟨1, "a", "()I"⟩, ⟨2, "b", "()V"⟩]
      [] [] (List.Perm.swap _ _ _) (by decide) (List.Perm.refl _)
      (by decide)).2.1

end Claims

end Jdwpfs
